import Mathlib

/-!
# internet-monitor: the round-based probe scheduler

A shallow embedding of `main.go` and `database.go`.

* `Pinger.Ping`, `PingManager.runOnce`, `NewPingManager` are embedded as pure
  functions.  Everything the network decides (request construction, the
  request itself, closing the body, the clock readings) is an explicit
  `ProbeEnv` argument; the order in which the goroutines of a round run is an
  explicit schedule.
* `runPings` / `runRound` are embedded as a labelled transition system over a
  program counter, a clock and the long-lived cancellation token.  The
  environment (time passing, the interrupt signal, the probes, the database)
  acts through events.
* `run`, `connectToDatabase`, `runMigrations` are embedded as functions of the
  outcome of each external call, producing the list of calls made.
-/

namespace InternetMonitor

/-! ## Data model -/

/-- The Go `error` interface value: `none` is `nil`, `some msg` an error. -/
abbrev GoError := Option String

/-- A `time.Duration`: signed nanoseconds. -/
abbrev Duration := Int

/-- `type Config struct` (main.go:26). -/
structure Config where
  ConnectionString : String
  Urls : List String
deriving DecidableEq, Repr

/-- `type Pinger struct` (main.go:57). -/
structure Pinger where
  url : String
  lastError : GoError
  duration : Option Duration
deriving DecidableEq, Repr

/-- `type PingResult struct` (main.go:90). -/
structure PingResult where
  hadError : Bool
  duration : Option Duration
  url : String
  startedAt : Nat
deriving DecidableEq, Repr

/-- `type PingManager struct` (main.go:97). -/
structure PingManager where
  pingers : List Pinger
deriving DecidableEq, Repr

/-- What the outside world does to one call of `Ping`: the two clock readings
and the error value of each of the three fallible steps. -/
structure ProbeEnv where
  /-- reading of `time.Now()` at main.go:70 -/
  startNow : Nat
  /-- error of `http.NewRequestWithContext` (main.go:71) -/
  newRequestErr : GoError
  /-- error of `http.DefaultClient.Do` (main.go:77): connection or transport
  failure, or the context being done before the response arrived -/
  doErr : GoError
  /-- error of `response.Body.Close()` (main.go:83) -/
  closeErr : GoError
  /-- reading of `time.Now()` at main.go:84 -/
  endNow : Nat
deriving DecidableEq, Repr

/-- Largest `time.Duration` (`math.MaxInt64`). -/
def maxDuration : Int := 9223372036854775807

/-- Smallest `time.Duration` (`math.MinInt64`). -/
def minDuration : Int := -9223372036854775808

/-- `Time.Sub`: the difference of two clock readings, saturating at the ends
of the `int64` range as the Go library does. -/
def Sub (t u : Nat) : Duration :=
  let d : Int := (t : Int) - (u : Int)
  if d > maxDuration then maxDuration
  else if d < minDuration then minDuration
  else d

/-! ## The probe -/

/-- `func (p *Pinger) Ping` (main.go:63-88), with the probe's environment made
explicit.  The function returns the pinger as the call leaves it; it has no
other result and cannot fail. -/
def Pinger.Ping (env : ProbeEnv) (p : Pinger) : Pinger :=
  -- p.lastError = nil; p.duration = nil
  let p : Pinger := { p with lastError := none, duration := none }
  -- start := time.Now()
  let start := env.startNow
  match env.newRequestErr with
  | some err =>
    -- p.lastError = fmt.Errorf("creating request failed: %w", err); return
    { p with lastError := some ("creating request failed: " ++ err) }
  | none =>
    match env.doErr with
    | some err =>
      -- p.lastError = err; return
      { p with lastError := some err }
    | none =>
      -- p.lastError = response.Body.Close()
      let p : Pinger := { p with lastError := env.closeErr }
      -- end := time.Now(); dur := end.Sub(start); p.duration = &dur
      let dur := Sub env.endNow start
      { p with duration := some dur }

/-- The loop body of main.go:115-122: the outcome read off a pinger. -/
def PingResult.ofPinger (startingAt : Nat) (pinger : Pinger) : PingResult :=
  { hadError := pinger.lastError.isSome
    duration := pinger.duration
    url := pinger.url
    startedAt := startingAt }

/-- The fan-out of main.go:107-111.  Each goroutine writes only the pinger it
was started on, so a run of the round is given by the order in which the
goroutines execute: `sched` lists the pinger indices in that order, and
`envs i` is what the network does to the probe of pinger `i`. -/
def PingManager.fanOut (envs : Nat → ProbeEnv) (sched : List Nat)
    (pingers : List Pinger) : List Pinger :=
  sched.foldl (fun ps i => List.modify (Pinger.Ping (envs i)) i ps) pingers

/-- `func (m *PingManager) runOnce` (main.go:101-125).  `startingAt` is the
reading of `time.Now()` at main.go:102.  Returns the results and the manager
with the pingers as the round leaves them. -/
def PingManager.runOnce (m : PingManager) (startingAt : Nat)
    (envs : Nat → ProbeEnv) (sched : List Nat) : List PingResult × PingManager :=
  let pingers := PingManager.fanOut envs sched m.pingers
  let results := pingers.map (PingResult.ofPinger startingAt)
  (results, { pingers := pingers })

/-- `func NewPingManager` (main.go:127-139). -/
def NewPingManager (config : Config) : PingManager :=
  { pingers := config.Urls.map (fun url => { url := url, lastError := none, duration := none }) }

/-- The barrier `wg.Wait()` (main.go:111) lets `runOnce` continue only when
every goroutine has called `wg.Done()`: the schedule of a completed fan-out
runs each of the `n` goroutines exactly once. -/
def completeSchedule (n : Nat) (sched : List Nat) : Prop :=
  sched.Perm (List.range n)

instance (n : Nat) (sched : List Nat) : Decidable (completeSchedule n sched) := by
  unfold completeSchedule; infer_instance

/-! ## The scheduler -/

/-- The cadence floor `time.Second` of main.go:163, in nanoseconds. -/
def D : Nat := 1000000000

/-- The four arguments of the insert statement of main.go:169. -/
structure Row where
  time : Nat
  duration : Option Duration
  url : String
  had_error : Bool
deriving DecidableEq, Repr

/-- The arguments `runRound` passes for one result (main.go:169). -/
def Row.ofResult (result : PingResult) : Row :=
  { time := result.startedAt
    duration := result.duration
    url := result.url
    had_error := result.hadError }

/-- One call of `conn.Query` (main.go:169) as the database sees it. -/
structure InsertAttempt where
  row : Row
  /-- whether the context handed to `Query` was already cancelled at the call -/
  ctxDone : Bool
  /-- whether `Query` returned `err != nil` -/
  failed : Bool
deriving DecidableEq, Repr

/-- The two clock readings of a round: the one at which `runRound` created
the deadline signal (main.go:163) and `startingAt` of `runOnce` (main.go:102). -/
structure RoundStamp where
  created : Nat
  startedAt : Nat
deriving DecidableEq, Repr

/-- Program counter of the control goroutine inside `runPings`. -/
inductive Pc where
  /-- main.go:156, about to evaluate `ctx.Err()` -/
  | loopCheck
  /-- main.go:163, inside `runRound`, about to call `context.WithTimeout` -/
  | roundEntry
  /-- main.go:102, the deadline signal exists, about to read `time.Now()` -/
  | runOnceEntry (created : Nat)
  /-- main.go:104-111, goroutines launched, blocked in `wg.Wait()` -/
  | probing (created startingAt : Nat)
  /-- main.go:168, at the head of the insert loop with `rest` still to insert -/
  | inserting (created : Nat) (rest : List PingResult)
  /-- main.go:179, blocked in `<- timeout.Done()` -/
  | waitDone (created : Nat)
  /-- main.go:159, the loop has exited -/
  | stopped
deriving DecidableEq, Repr

/-- State of `runPings`: the clock, the long-lived token `ctx`, the ping
manager, the program counter, and a record of what happened so far. -/
structure State where
  /-- current clock reading, nanoseconds -/
  now : Nat
  /-- whether `ctx` (main.go:147) has been cancelled -/
  cancelled : Bool
  manager : PingManager
  pc : Pc
  /-- clock readings at which a round began (the loop entered its body), newest first -/
  begins : List Nat
  /-- the stamps of the rounds that reached `runOnce`, newest first -/
  stamps : List RoundStamp
  /-- every call of `conn.Query`, oldest first -/
  inserts : List InsertAttempt
deriving DecidableEq, Repr

/-- What can happen next. -/
inductive Event where
  /-- `d` nanoseconds pass -/
  | tick (d : Nat)
  /-- the interrupt signal arrives and the goroutine of main.go:149-152 calls `cancel()` -/
  | interrupt
  /-- the control goroutine executes its next statement -/
  | advance
  /-- every probe goroutine of the round has finished, in the order `sched` -/
  | probed (envs : Nat → ProbeEnv) (sched : List Nat)
  /-- `conn.Query` returns, with `err != nil` iff `err` -/
  | queried (err : Bool)

/-- The deadline of the signal made by `context.WithTimeout(ctx, time.Second)`
at clock reading `created`. -/
def deadline (created : Nat) : Nat := created + D

/-- Whether the round's signal `timeout` is done: its parent `ctx` was
cancelled, or its deadline has passed. -/
def timeoutDone (s : State) (created : Nat) : Bool :=
  s.cancelled || decide (deadline created ≤ s.now)

/-- `func runRound` (main.go:161-180): one step of the control goroutine
inside the round, or `none` when the event cannot happen in this state.

The database driver is outside the repository; its contract for a context
that is already done is that the operation is refused with the context's
error, so `queried false` cannot answer a `Query` issued with a cancelled
`ctx`. -/
def runRound (s : State) : Event → Option State
  | .advance =>
    match s.pc with
    -- timeout, cancel := context.WithTimeout(ctx, time.Second)
    | .roundEntry => some { s with pc := .runOnceEntry s.now }
    -- startingAt := time.Now(); wg.Add; go pinger.Ping ...
    | .runOnceEntry created =>
      some { s with pc := .probing created s.now
                    stamps := { created := created, startedAt := s.now } :: s.stamps }
    -- the range loop is exhausted; log.Println
    | .inserting created [] => some { s with pc := .waitDone created }
    -- <- timeout.Done(); deferred cancel(); return
    | .waitDone created =>
      if timeoutDone s created then some { s with pc := .loopCheck } else none
    | _ => none
  | .probed envs sched =>
    match s.pc with
    -- wg.Wait() returns; results are collected
    | .probing created startingAt =>
      if completeSchedule s.manager.pingers.length sched then
        let out := s.manager.runOnce startingAt envs sched
        some { s with pc := .inserting created out.1, manager := out.2 }
      else none
    | _ => none
  | .queried err =>
    match s.pc with
    -- rows, err := conn.Query(ctx, ..., result.startedAt, result.duration, result.url, result.hadError)
    | .inserting created (result :: rest) =>
      if s.cancelled && !err then none
      else some { s with pc := .inserting created rest
                         inserts := s.inserts ++
                           [{ row := Row.ofResult result, ctxDone := s.cancelled, failed := err }] }
    | _ => none
  | _ => none

/-- One step of `runPings` (main.go:156-158) and of its environment. -/
def step (s : State) : Event → Option State
  | .tick d => some { s with now := s.now + d }
  | .interrupt => some { s with cancelled := true }
  | e =>
    match s.pc with
    -- for cancelled := ctx.Err(); cancelled == nil; ...
    | .loopCheck =>
      match e with
      | .advance =>
        if s.cancelled then some { s with pc := .stopped }
        else some { s with pc := .roundEntry, begins := s.now :: s.begins }
      | _ => none
    | .stopped => none
    | _ => runRound s e

/-- Run a sequence of events; `none` when one of them cannot happen. -/
def exec (s : State) : List Event → Option State
  | [] => some s
  | e :: es => (step s e).bind (fun s1 => exec s1 es)

/-- `func runPings` (main.go:141-159) up to the loop: the state in which the
loop is entered at clock reading `t0`.  `ctx` is fresh, hence not cancelled. -/
def runPings (config : Config) (t0 : Nat) : State :=
  { now := t0
    cancelled := false
    manager := NewPingManager config
    pc := .loopCheck
    begins := []
    stamps := []
    inserts := [] }

/-- The manager after a number of earlier rounds: each entry gives the
`startingAt`, the probes' environment and the schedule of one round. -/
def PingManager.afterRounds (m : PingManager)
    (history : List (Nat × (Nat → ProbeEnv) × List Nat)) : PingManager :=
  history.foldl (fun m h => (m.runOnce h.1 h.2.1 h.2.2).2) m

/-- The part of the timing invariant that depends on where the control
goroutine is. -/
def TimedAt (s : State) : Pc → Prop
  | .loopCheck =>
    (∀ b ∈ s.begins.head?, s.cancelled = true ∨ b + D ≤ s.now) ∧
      (∀ st ∈ s.stamps.head?, s.cancelled = true ∨ st.created + D ≤ s.now)
  | .roundEntry =>
    (∀ b ∈ s.begins.head?, b ≤ s.now) ∧ (∀ st ∈ s.stamps.head?, st.created + D ≤ s.now)
  | .runOnceEntry c =>
    (∀ b ∈ s.begins.head?, b ≤ c) ∧ c ≤ s.now ∧ (∀ st ∈ s.stamps.head?, st.created + D ≤ c)
  | .probing c _ => (∀ b ∈ s.begins.head?, b ≤ c) ∧ (∀ st ∈ s.stamps.head?, st.created ≤ c)
  | .inserting c _ => (∀ b ∈ s.begins.head?, b ≤ c) ∧ (∀ st ∈ s.stamps.head?, st.created ≤ c)
  | .waitDone c => (∀ b ∈ s.begins.head?, b ≤ c) ∧ (∀ st ∈ s.stamps.head?, st.created ≤ c)
  | .stopped => True

/-- The timing invariant of the scheduler: successive round beginnings are
`D` apart, successive stamps are `D` apart from deadline creation to the next
`startingAt`, and the current round's deadline is at least `D` after its
beginning. -/
def Timed (s : State) : Prop :=
  List.Chain' (fun later earlier : Nat => earlier + D ≤ later) s.begins ∧
  List.Chain' (fun later earlier : RoundStamp =>
    earlier.created + D ≤ later.startedAt ∧ earlier.startedAt ≤ later.startedAt) s.stamps ∧
  (∀ st ∈ s.stamps, st.created ≤ st.startedAt) ∧
  (∀ st ∈ s.stamps.head?, st.startedAt ≤ s.now) ∧
  TimedAt s s.pc

/-- The part of the stamping invariant that depends on where the control
goroutine is. -/
def StampedAt (s : State) : Pc → Prop
  | .probing c t => s.stamps.head? = some { created := c, startedAt := t }
  | .inserting _ rest =>
    ∃ st, s.stamps.head? = some st ∧ ∀ r ∈ rest, r.startedAt = st.startedAt
  | _ => True

/-- The stamping invariant: the `time` of every row handed to the database
is the `startingAt` of a recorded round, and the results still to insert
carry the `startingAt` of the current round. -/
def Stamped (s : State) : Prop :=
  (∀ a ∈ s.inserts, ∃ st ∈ s.stamps, a.row.time = st.startedAt) ∧ StampedAt s s.pc

/-- The insert attempt made for a result when the token handed to `Query` is
already cancelled: it is issued, and it fails. -/
def cancelledAttempt (r : PingResult) : InsertAttempt :=
  { row := Row.ofResult r, ctxDone := true, failed := true }

/-- The round has been entered but its results do not exist yet. -/
def Pc.beforeResults : Pc → Prop
  | .roundEntry => True
  | .runOnceEntry _ => True
  | .probing _ _ => True
  | _ => False

/-- The outcomes `rs` are what the round in flight in state `s` has still to
hand to the database: the rest of the insert loop when the loop is running,
nothing when it is over, and one outcome per endpoint, in endpoint order,
when the probes have not reported yet. -/
def outstanding (s : State) (rs : List PingResult) : Prop :=
  match s.pc with
  | .inserting _ rest => rs = rest
  | .waitDone _ => rs = []
  | .roundEntry => rs.map (·.url) = s.manager.pingers.map (·.url)
  | .runOnceEntry _ => rs.map (·.url) = s.manager.pingers.map (·.url)
  | .probing _ _ => rs.map (·.url) = s.manager.pingers.map (·.url)
  | _ => False

/-- Invariant of the run that follows a cancellation in state `s0`, by
program counter. -/
def AfterCancelAt (s0 x : State) : Pc → Prop
  | .roundEntry | .runOnceEntry _ | .probing _ _ =>
    x.inserts = s0.inserts ∧
      x.manager.pingers.map (·.url) = s0.manager.pingers.map (·.url) ∧ s0.pc.beforeResults
  | .inserting _ todo =>
    ∃ done, outstanding s0 (done ++ todo) ∧ x.inserts = s0.inserts ++ done.map cancelledAttempt
  | .waitDone _ | .loopCheck | .stopped =>
    ∃ done, outstanding s0 done ∧ x.inserts = s0.inserts ++ done.map cancelledAttempt

/-- Invariant of the run that follows a cancellation in state `s0`. -/
def AfterCancel (s0 x : State) : Prop :=
  x.cancelled = true ∧ x.begins = s0.begins ∧ AfterCancelAt s0 x x.pc

/-- Invariant of the run that follows the start of the insert loop in state
`s0` with the results `rs`: either a later round has begun, or the rows
handed to the database since are those of a prefix `done` of `rs`, and the
loop is at the rest. -/
def InsertProgress (s0 : State) (c : Nat) (rs : List PingResult) (x : State) : Prop :=
  s0.begins.length < x.begins.length ∨
    (x.begins = s0.begins ∧ ∃ done todo, rs = done ++ todo ∧
      x.inserts.map (·.row) = s0.inserts.map (·.row) ++ done.map Row.ofResult ∧
      (x.pc = .inserting c todo ∨
        (todo = [] ∧ (x.pc = .waitDone c ∨ x.pc = .loopCheck ∨ x.pc = .stopped))))

/-- A probe abandoned because its context was cancelled. -/
def cancelledProbe : Nat → ProbeEnv :=
  fun _ => { startNow := 0, newRequestErr := none, doErr := some "context canceled",
             closeErr := none, endNow := 0 }

/-! ## Start-up -/

/-- What the outside world answers to each external call made during
start-up: the error value of every fallible call and the configuration that
`viper.Unmarshal` fills in. -/
structure BootEnv where
  /-- `viper.ReadInConfig()` (main.go:35) -/
  readInConfig : GoError
  /-- `viper.Unmarshal(&config)` (main.go:41) -/
  unmarshal : GoError
  config : Config
  /-- `pgx.Connect` (database.go:14) -/
  connect : GoError
  /-- `conn.Ping` (database.go:19) -/
  ping : GoError
  /-- `migrate.NewMigrator` (database.go:33) -/
  newMigrator : GoError
  /-- `m.LoadMigrations` (database.go:37) -/
  loadMigrations : GoError
  /-- `m.Migrate` (database.go:42) -/
  migrate : GoError
deriving DecidableEq, Repr

/-- The external calls of start-up, and the call of `runPings`. -/
inductive Call where
  | readInConfig | unmarshal | connect | ping
  | newMigrator | loadMigrations | migrate | runPings
deriving DecidableEq, Repr

/-- A `*pgx.Conn`: the connection opened for a connection string. -/
structure Conn where
  connectionString : String
deriving DecidableEq, Repr

/-- `func runMigrations` (database.go:32-48): the calls made and the error
returned. -/
def runMigrations (env : BootEnv) : List Call × GoError :=
  match env.newMigrator with
  | some err => ([.newMigrator], some ("failed to initialize migrator: " ++ err))
  | none =>
    match env.loadMigrations with
    | some _ => ([.newMigrator, .loadMigrations], some "failed to load migrations")
    | none =>
      match env.migrate with
      | some err =>
        ([.newMigrator, .loadMigrations, .migrate],
          some ("failed to run actual migrations: " ++ err))
      | none => ([.newMigrator, .loadMigrations, .migrate], none)

/-- `func connectToDatabase` (database.go:13-30): the calls made, the
connection returned (`none` is `nil`) and the error returned. -/
def connectToDatabase (env : BootEnv) (config : Config) : List Call × Option Conn × GoError :=
  match env.connect with
  | some err => ([.connect], none, some ("failed to connect to database: " ++ err))
  | none =>
    let conn : Conn := { connectionString := config.ConnectionString }
    match env.ping with
    | some err => ([.connect, .ping], none, some ("ping failed: " ++ err))
    | none =>
      let mig := runMigrations env
      match mig.2 with
      | some _ => (.connect :: .ping :: mig.1, none, some "failed to run migrations")
      | none => (.connect :: .ping :: mig.1, some conn, none)

/-- `func run` (main.go:31-55): the calls made, the state in which `runPings`
entered its loop (`none` when `runPings` was never called) and the error
returned.  `t0` is the clock reading when the loop is entered. -/
def run (env : BootEnv) (t0 : Nat) : List Call × Option State × GoError :=
  match env.readInConfig with
  | some err => ([.readInConfig], none, some ("failed to read config: " ++ err))
  | none =>
    match env.unmarshal with
    | some err =>
      ([.readInConfig, .unmarshal], none, some ("failed to unmarshal config: " ++ err))
    | none =>
      let config := env.config
      let db := connectToDatabase env config
      match db.2.2 with
      | some err =>
        (.readInConfig :: .unmarshal :: db.1, none,
          some ("failed create database connection: " ++ err))
      | none =>
        -- runPings(&config, conn); return nil
        (.readInConfig :: .unmarshal :: db.1 ++ [.runPings], some (runPings config t0), none)

/-! ## Concrete runs -/

/-- A configuration with one endpoint. -/
def oneUrl : Config := { ConnectionString := "postgres://db", Urls := ["http://a"] }

/-- A probe that succeeds in 50 ms. -/
def okProbe : Nat → ProbeEnv :=
  fun _ => { startNow := 10, newRequestErr := none, doErr := none, closeErr := none,
             endNow := 50000010 }

/-- Two rounds without any failure.  In the first round 2 ms pass between
the creation of the deadline signal and the reading of `startingAt`; the
round returns 1 µs after its deadline. -/
def twoRounds : List Event :=
  [.advance, .advance, .tick 2000000, .advance, .probed okProbe [0], .queried false, .advance,
   .tick 998001000, .advance,
   .advance, .advance, .advance, .probed okProbe [0], .queried false, .advance]

/-- The state `twoRounds` leads to from clock reading 0. -/
def afterTwoRounds : State :=
  { now := 1000001000
    cancelled := false
    manager := { pingers := [{ url := "http://a", lastError := none, duration := some 50000000 }] }
    pc := .waitDone 1000001000
    begins := [1000001000, 0]
    stamps := [{ created := 1000001000, startedAt := 1000001000 },
               { created := 0, startedAt := 2000000 }]
    inserts :=
      [{ row := { time := 2000000, duration := some 50000000, url := "http://a",
                  had_error := false }, ctxDone := false, failed := false },
       { row := { time := 1000001000, duration := some 50000000, url := "http://a",
                  had_error := false }, ctxDone := false, failed := false }] }

/-- The state after the first boundary check of a run from clock reading 0
found the token not cancelled. -/
def firstRoundBegun : State :=
  { runPings oneUrl 0 with pc := .roundEntry, begins := [0] }

/-- The state in which the interrupt has arrived before the first boundary
check of a run from clock reading 0. -/
def cancelledBeforeFirstRound : State :=
  { runPings oneUrl 0 with cancelled := true }

/-- The state after the first boundary check found the token cancelled. -/
def stoppedBeforeFirstRound : State :=
  { runPings oneUrl 0 with cancelled := true, pc := .stopped }

/-- One round in which the interrupt arrives after the probe has reported a
success and before its outcome is inserted. -/
def cancelMidRound : List Event :=
  [.advance, .advance, .advance, .probed okProbe [0], .interrupt]

/-- The state `cancelMidRound` leads to from clock reading 0. -/
def midRoundCancelled : State :=
  { now := 0
    cancelled := true
    manager := { pingers := [{ url := "http://a", lastError := none, duration := some 50000000 }] }
    pc := .inserting 0
      [{ hadError := false, duration := some 50000000, url := "http://a", startedAt := 0 }]
    begins := [0]
    stamps := [{ created := 0, startedAt := 0 }]
    inserts := [] }

/-- A round of two endpoints at the head of its insert loop. -/
def twoToInsert : State :=
  { now := 60000000
    cancelled := false
    manager := { pingers := [{ url := "http://a", lastError := none, duration := some 50000000 },
                             { url := "http://b", lastError := some "timeout", duration := none }] }
    pc := .inserting 0
      [{ hadError := false, duration := some 50000000, url := "http://a", startedAt := 5 },
       { hadError := true, duration := none, url := "http://b", startedAt := 5 }]
    begins := [0]
    stamps := [{ created := 0, startedAt := 5 }]
    inserts := [] }

/-- Probes of two endpoints: the first is refused, the second succeeds. -/
def mixedProbes : Nat → ProbeEnv :=
  fun i =>
    if i = 0 then
      { startNow := 10, newRequestErr := none, doErr := some "connection refused",
        closeErr := none, endNow := 20 }
    else okProbe i

/-- A manager of two endpoints that an earlier round left in some state. -/
def usedManager : PingManager :=
  { pingers := [{ url := "http://a", lastError := none, duration := some 7 },
                { url := "http://b", lastError := some "timeout", duration := none }] }

/-- A start-up in which everything succeeds but `m.Migrate`. -/
def migrateFails : BootEnv :=
  { readInConfig := none, unmarshal := none, config := oneUrl, connect := none, ping := none
    newMigrator := none, loadMigrations := none, migrate := some "syntax error" }

/-! ## Lemmas on the probe and the fan-out -/

theorem Ping_url (env : ProbeEnv) (p : Pinger) : (Pinger.Ping env p).url = p.url := by
  unfold Pinger.Ping
  cases env.newRequestErr <;> cases env.doErr <;> rfl

theorem Ping_reset (env : ProbeEnv) (p : Pinger) :
    Pinger.Ping env p = Pinger.Ping env { url := p.url, lastError := none, duration := none } := by
  unfold Pinger.Ping
  cases env.newRequestErr <;> cases env.doErr <;> rfl

theorem Ping_idem (env : ProbeEnv) (p : Pinger) :
    Pinger.Ping env (Pinger.Ping env p) = Pinger.Ping env p := by
  rw [Ping_reset env (Pinger.Ping env p), Ping_url, ← Ping_reset]

theorem fanOut_getElem? (envs : Nat → ProbeEnv) (sched : List Nat) :
    ∀ (ps : List Pinger) (i : Nat),
      (PingManager.fanOut envs sched ps)[i]? =
        if i ∈ sched then ps[i]?.map (Pinger.Ping (envs i)) else ps[i]? := by
  induction sched with
  | nil => intro ps i; simp [PingManager.fanOut]
  | cons j tl ih =>
    intro ps i
    have e : PingManager.fanOut envs (j :: tl) ps =
        PingManager.fanOut envs tl (List.modify (Pinger.Ping (envs j)) j ps) := rfl
    rw [e, ih, List.getElem?_modify]
    by_cases hij : i = j
    · subst hij
      by_cases hmem : i ∈ tl
      · cases h : ps[i]? <;> simp [hmem, Ping_idem]
      · cases h : ps[i]? <;> simp [hmem]
    · have hji : ¬ j = i := fun h => hij h.symm
      by_cases hmem : i ∈ tl
      · cases h : ps[i]? <;> simp [hmem, hij, hji]
      · cases h : ps[i]? <;> simp [hmem, hij, hji]

theorem fanOut_length (envs : Nat → ProbeEnv) (sched : List Nat) :
    ∀ ps : List Pinger, (PingManager.fanOut envs sched ps).length = ps.length := by
  induction sched with
  | nil => intro ps; rfl
  | cons j tl ih =>
    intro ps
    have e : PingManager.fanOut envs (j :: tl) ps =
        PingManager.fanOut envs tl (List.modify (Pinger.Ping (envs j)) j ps) := rfl
    rw [e, ih, List.length_modify]

theorem fanOut_map_url (envs : Nat → ProbeEnv) (sched : List Nat) (ps : List Pinger) :
    (PingManager.fanOut envs sched ps).map (·.url) = ps.map (·.url) := by
  apply List.ext_getElem?
  intro i
  rw [List.getElem?_map, List.getElem?_map, fanOut_getElem?]
  by_cases hmem : i ∈ sched
  · cases h : ps[i]? <;> simp [hmem, Ping_url]
  · simp [hmem]

theorem runOnce_map_url (m : PingManager) (t : Nat) (envs : Nat → ProbeEnv) (sched : List Nat) :
    (m.runOnce t envs sched).1.map (·.url) = m.pingers.map (·.url) := by
  simp only [PingManager.runOnce, List.map_map]
  rw [← fanOut_map_url envs sched m.pingers]
  rfl

theorem runOnce_manager_url (m : PingManager) (t : Nat) (envs : Nat → ProbeEnv) (sched : List Nat) :
    (m.runOnce t envs sched).2.pingers.map (·.url) = m.pingers.map (·.url) := by
  simp only [PingManager.runOnce]
  exact fanOut_map_url envs sched m.pingers

theorem afterRounds_url (history : List (Nat × (Nat → ProbeEnv) × List Nat)) :
    ∀ m : PingManager, (m.afterRounds history).pingers.map (·.url) = m.pingers.map (·.url) := by
  induction history with
  | nil => intro m; rfl
  | cons h tl ih =>
    intro m
    have e : m.afterRounds (h :: tl) = ((m.runOnce h.1 h.2.1 h.2.2).2).afterRounds tl := rfl
    rw [e, ih, runOnce_manager_url]

theorem mem_of_completeSchedule {n : Nat} {sched : List Nat}
    (hs : completeSchedule n sched) {i : Nat} (hi : i < n) : i ∈ sched :=
  (List.Perm.mem_iff hs).2 (List.mem_range.2 hi)

/-- With a complete schedule, outcome `i` of a round is what `Ping` makes of
pinger `i` under its own environment `envs i`. -/
theorem runOnce_getElem? (m : PingManager) (t : Nat) (envs : Nat → ProbeEnv) (sched : List Nat)
    (hs : completeSchedule m.pingers.length sched) (i : Nat) :
    (m.runOnce t envs sched).1[i]? =
      m.pingers[i]?.map (fun p => PingResult.ofPinger t (Pinger.Ping (envs i) p)) := by
  simp only [PingManager.runOnce, List.getElem?_map, fanOut_getElem?]
  by_cases hi : i < m.pingers.length
  · simp only [mem_of_completeSchedule hs hi, if_true, Option.map_map]
    rfl
  · have hnone : m.pingers[i]? = none := List.getElem?_eq_none (Nat.le_of_not_lt hi)
    simp [hnone]

/-! ## Lemmas on the scheduler -/

/-- Every step is one of ten transitions. -/
theorem step_cases {s s' : State} {e : Event} (h : step s e = some s') :
    (∃ d, e = .tick d ∧ s' = { s with now := s.now + d }) ∨
    (e = .interrupt ∧ s' = { s with cancelled := true }) ∨
    (e = .advance ∧ s.pc = .loopCheck ∧ s.cancelled = true ∧ s' = { s with pc := .stopped }) ∨
    (e = .advance ∧ s.pc = .loopCheck ∧ s.cancelled = false ∧
      s' = { s with pc := .roundEntry, begins := s.now :: s.begins }) ∨
    (e = .advance ∧ s.pc = .roundEntry ∧ s' = { s with pc := .runOnceEntry s.now }) ∨
    (∃ c, e = .advance ∧ s.pc = .runOnceEntry c ∧
      s' = { s with pc := .probing c s.now
                    stamps := { created := c, startedAt := s.now } :: s.stamps }) ∨
    (∃ c, e = .advance ∧ s.pc = .inserting c [] ∧ s' = { s with pc := .waitDone c }) ∨
    (∃ c, e = .advance ∧ s.pc = .waitDone c ∧ (s.cancelled = true ∨ c + D ≤ s.now) ∧
      s' = { s with pc := .loopCheck }) ∨
    (∃ c t envs sched, e = .probed envs sched ∧ s.pc = .probing c t ∧
      completeSchedule s.manager.pingers.length sched ∧
      s' = { s with pc := .inserting c (s.manager.runOnce t envs sched).1
                    manager := (s.manager.runOnce t envs sched).2 }) ∨
    (∃ c r rest err, e = .queried err ∧ s.pc = .inserting c (r :: rest) ∧
      (s.cancelled = true → err = true) ∧
      s' = { s with pc := .inserting c rest
                    inserts := s.inserts ++
                      [{ row := Row.ofResult r, ctxDone := s.cancelled, failed := err }] }) := by
  cases e with
  | tick d => simp [step] at h; exact Or.inl ⟨d, rfl, h.symm⟩
  | interrupt => simp [step] at h; exact Or.inr (Or.inl ⟨rfl, h.symm⟩)
  | advance =>
    cases hpc : s.pc with
    | loopCheck =>
      simp only [step, hpc] at h
      by_cases hc : s.cancelled = true
      · rw [if_pos hc] at h
        exact Or.inr (Or.inr (Or.inl ⟨rfl, rfl, hc, (Option.some.inj h).symm⟩))
      · rw [if_neg hc] at h
        exact Or.inr (Or.inr (Or.inr (Or.inl
          ⟨rfl, rfl, by simpa using hc, (Option.some.inj h).symm⟩)))
    | roundEntry =>
      simp [step, runRound, hpc] at h
      exact Or.inr (Or.inr (Or.inr (Or.inr (Or.inl ⟨rfl, rfl, h.symm⟩))))
    | runOnceEntry c =>
      simp [step, runRound, hpc] at h
      exact Or.inr (Or.inr (Or.inr (Or.inr (Or.inr (Or.inl ⟨c, rfl, rfl, h.symm⟩)))))
    | probing c t => simp [step, runRound, hpc] at h
    | inserting c rest =>
      cases rest with
      | nil =>
        simp [step, runRound, hpc] at h
        exact Or.inr (Or.inr (Or.inr (Or.inr (Or.inr (Or.inr (Or.inl ⟨c, rfl, rfl, h.symm⟩))))))
      | cons r rest => simp [step, runRound, hpc] at h
    | waitDone c =>
      simp only [step, runRound, hpc] at h
      by_cases hd : timeoutDone s c = true
      · simp [hd] at h
        refine Or.inr (Or.inr (Or.inr (Or.inr (Or.inr (Or.inr (Or.inr (Or.inl
          ⟨c, rfl, rfl, ?_, h.symm⟩)))))))
        simpa [timeoutDone, deadline] using hd
      · simp [hd] at h
    | stopped => simp [step, hpc] at h
  | probed envs sched =>
    cases hpc : s.pc with
    | probing c t =>
      simp only [step, runRound, hpc] at h
      by_cases hs : completeSchedule s.manager.pingers.length sched
      · simp [hs] at h
        exact Or.inr (Or.inr (Or.inr (Or.inr (Or.inr (Or.inr (Or.inr (Or.inr (Or.inl
          ⟨c, t, envs, sched, rfl, rfl, hs, h.symm⟩))))))))
      · simp [hs] at h
    | _ => simp [step, runRound, hpc] at h
  | queried err =>
    cases hpc : s.pc with
    | inserting c rest =>
      cases rest with
      | nil => simp [step, runRound, hpc] at h
      | cons r rest =>
        simp only [step, runRound, hpc] at h
        by_cases hg : (s.cancelled && !err) = true
        · simp [hg] at h
        · simp [hg] at h
          refine Or.inr (Or.inr (Or.inr (Or.inr (Or.inr (Or.inr (Or.inr (Or.inr (Or.inr
            ⟨c, r, rest, err, rfl, rfl, ?_, h.symm⟩))))))))
          intro hc
          simpa [hc] using hg
    | _ => simp [step, runRound, hpc] at h

/-- A property kept by every step holds along every execution. -/
theorem exec_invariant (P : State → Prop)
    (hstep : ∀ s e s', P s → step s e = some s' → P s') :
    ∀ (evs : List Event) (s s' : State), P s → exec s evs = some s' → P s' := by
  intro evs
  induction evs with
  | nil =>
    intro s s' hP h
    simp [exec] at h
    exact h ▸ hP
  | cons e es ih =>
    intro s s' hP h
    simp only [exec] at h
    cases hs : step s e with
    | none => simp [hs] at h
    | some s1 =>
      simp [hs] at h
      exact ih s1 s' (hstep s e s1 hP hs) h

theorem exec_append (s : State) (es₁ es₂ : List Event) :
    exec s (es₁ ++ es₂) = (exec s es₁).bind (fun s1 => exec s1 es₂) := by
  induction es₁ generalizing s with
  | nil => simp [exec]
  | cons e es ih =>
    simp only [List.cons_append, exec]
    cases step s e with
    | none => rfl
    | some s1 => simpa using ih s1

theorem timed_init (config : Config) (t0 : Nat) : Timed (runPings config t0) := by
  simp [Timed, TimedAt, runPings]

theorem timed_step (s : State) (e : Event) (s' : State) (hT : Timed s)
    (h : step s e = some s') : Timed s' := by
  obtain ⟨hb, hst, hcs, hnow, hat⟩ := hT
  rcases step_cases h with ⟨d, -, rfl⟩ | ⟨-, rfl⟩ | ⟨-, hpc, hc, rfl⟩ | ⟨-, hpc, hc, rfl⟩ |
    ⟨-, hpc, rfl⟩ | ⟨c, -, hpc, rfl⟩ | ⟨c, -, hpc, rfl⟩ | ⟨c, -, hpc, hd, rfl⟩ |
    ⟨c, t, envs, sched, -, hpc, -, rfl⟩ | ⟨c, r, rest, err, -, hpc, -, rfl⟩
  · -- tick
    refine ⟨hb, hst, hcs, fun st h => Nat.le_trans (hnow st h) (Nat.le_add_right _ _), ?_⟩
    cases hpc : s.pc <;> simp only [hpc, TimedAt] at hat ⊢
    · exact ⟨fun b h => (hat.1 b h).imp id (fun h => Nat.le_trans h (Nat.le_add_right _ _)),
        fun b h => (hat.2 b h).imp id (fun h => Nat.le_trans h (Nat.le_add_right _ _))⟩
    · exact ⟨fun b h => Nat.le_trans (hat.1 b h) (Nat.le_add_right _ _),
        fun b h => Nat.le_trans (hat.2 b h) (Nat.le_add_right _ _)⟩
    · exact ⟨hat.1, Nat.le_trans hat.2.1 (Nat.le_add_right _ _), hat.2.2⟩
    · exact hat
    · exact hat
    · exact hat
  · -- interrupt
    refine ⟨hb, hst, hcs, hnow, ?_⟩
    cases hpc : s.pc <;> simp only [hpc, TimedAt] at hat ⊢
    · exact ⟨fun _ _ => Or.inl trivial, fun _ _ => Or.inl trivial⟩
    · exact hat
    · exact hat
    · exact hat
    · exact hat
    · exact hat
  · -- the loop exits
    exact ⟨hb, hst, hcs, hnow, trivial⟩
  · -- a round begins
    simp only [hpc, TimedAt, hc] at hat
    refine ⟨?_, hst, hcs, hnow, ?_⟩
    · refine List.chain'_cons'.2 ⟨fun b h => ?_, hb⟩
      rcases hat.1 b h with h' | h'
      · exact absurd h' (by simp)
      · exact h'
    · refine ⟨fun b h => ?_, fun st h => ?_⟩
      · simp at h
        subst h
        exact Nat.le_refl _
      · rcases hat.2 st h with h' | h'
        · exact absurd h' (by simp)
        · exact h'
  · -- the deadline signal is created
    simp only [hpc, TimedAt] at hat
    exact ⟨hb, hst, hcs, hnow, hat.1, Nat.le_refl _, hat.2⟩
  · -- startingAt is read
    simp only [hpc, TimedAt] at hat
    refine ⟨hb, ?_, ?_, ?_, ?_⟩
    · refine List.chain'_cons'.2 ⟨fun st h => ⟨?_, ?_⟩, hst⟩
      · exact Nat.le_trans (hat.2.2 st h) hat.2.1
      · exact hnow st h
    · intro st h
      rcases List.mem_cons.1 h with rfl | h
      · exact hat.2.1
      · exact hcs st h
    · intro st h
      simp at h
      subst h
      exact Nat.le_refl _
    · refine ⟨hat.1, fun st h => ?_⟩
      simp at h
      subst h
      exact Nat.le_refl _
  · -- the insert loop ends
    simp only [hpc, TimedAt] at hat
    exact ⟨hb, hst, hcs, hnow, hat⟩
  · -- the round returns
    simp only [hpc, TimedAt] at hat
    refine ⟨hb, hst, hcs, hnow, fun b h => ?_, fun st h => ?_⟩
    · rcases hd with hd | hd
      · exact Or.inl hd
      · exact Or.inr (Nat.le_trans (Nat.add_le_add_right (hat.1 b h) D) hd)
    · rcases hd with hd | hd
      · exact Or.inl hd
      · exact Or.inr (Nat.le_trans (Nat.add_le_add_right (hat.2 st h) D) hd)
  · -- the probes finish
    simp only [hpc, TimedAt] at hat
    exact ⟨hb, hst, hcs, hnow, hat⟩
  · -- an insert returns
    simp only [hpc, TimedAt] at hat
    exact ⟨hb, hst, hcs, hnow, hat⟩

theorem timed_reachable (config : Config) (t0 : Nat) (evs : List Event) (s : State)
    (h : exec (runPings config t0) evs = some s) : Timed s :=
  exec_invariant Timed timed_step evs _ s (timed_init config t0) h

theorem runOnce_startedAt (m : PingManager) (t : Nat) (envs : Nat → ProbeEnv)
    (sched : List Nat) : ∀ r ∈ (m.runOnce t envs sched).1, r.startedAt = t := by
  intro r hr
  simp only [PingManager.runOnce, List.mem_map] at hr
  obtain ⟨p, -, rfl⟩ := hr
  rfl

theorem stamped_init (config : Config) (t0 : Nat) : Stamped (runPings config t0) := by
  simp [Stamped, StampedAt, runPings]

theorem stamped_step (s : State) (e : Event) (s' : State) (hS : Stamped s)
    (h : step s e = some s') : Stamped s' := by
  obtain ⟨hrows, hat⟩ := hS
  rcases step_cases h with ⟨d, -, rfl⟩ | ⟨-, rfl⟩ | ⟨-, hpc, hc, rfl⟩ | ⟨-, hpc, hc, rfl⟩ |
    ⟨-, hpc, rfl⟩ | ⟨c, -, hpc, rfl⟩ | ⟨c, -, hpc, rfl⟩ | ⟨c, -, hpc, hd, rfl⟩ |
    ⟨c, t, envs, sched, -, hpc, -, rfl⟩ | ⟨c, r, rest, err, -, hpc, -, rfl⟩
  · exact ⟨hrows, hat⟩
  · exact ⟨hrows, hat⟩
  · exact ⟨hrows, trivial⟩
  · exact ⟨hrows, trivial⟩
  · exact ⟨hrows, trivial⟩
  · refine ⟨fun a ha => ?_, rfl⟩
    obtain ⟨st, hst, hEq⟩ := hrows a ha
    exact ⟨st, List.mem_cons_of_mem _ hst, hEq⟩
  · exact ⟨hrows, trivial⟩
  · exact ⟨hrows, trivial⟩
  · simp only [hpc, StampedAt] at hat
    exact ⟨hrows, ⟨_, hat, fun r hr => runOnce_startedAt s.manager t envs sched r hr⟩⟩
  · simp only [hpc, StampedAt] at hat
    obtain ⟨st, hhead, hall⟩ := hat
    refine ⟨fun a ha => ?_, ⟨st, hhead, fun x hx => hall x (List.mem_cons_of_mem _ hx)⟩⟩
    rcases List.mem_append.1 ha with ha | ha
    · exact hrows a ha
    · have ha' : a = { row := Row.ofResult r, ctxDone := s.cancelled, failed := err } := by
        simpa using ha
      subst ha'
      exact ⟨st, List.mem_of_mem_head? hhead, hall r (List.mem_cons_self _ _)⟩

theorem stamped_reachable (config : Config) (t0 : Nat) (evs : List Event) (s : State)
    (h : exec (runPings config t0) evs = some s) : Stamped s :=
  exec_invariant Stamped stamped_step evs _ s (stamped_init config t0) h

/-- Once the token is cancelled and no round is in flight, nothing more
happens: no round begins, no insert is issued, and the loop is at its check
or has exited. -/
theorem cancelled_idle_frozen (s : State) (hc : s.cancelled = true)
    (hpc : s.pc = .loopCheck ∨ s.pc = .stopped) (evs : List Event) (s' : State)
    (h : exec s evs = some s') :
    s'.cancelled = true ∧ (s'.pc = .loopCheck ∨ s'.pc = .stopped) ∧
      s'.begins = s.begins ∧ s'.stamps = s.stamps ∧ s'.inserts = s.inserts := by
  refine exec_invariant
    (fun x => x.cancelled = true ∧ (x.pc = .loopCheck ∨ x.pc = .stopped) ∧
      x.begins = s.begins ∧ x.stamps = s.stamps ∧ x.inserts = s.inserts)
    ?_ evs s s' ⟨hc, hpc, rfl, rfl, rfl⟩ h
  intro x e x' ⟨hxc, hxpc, hxb, hxs, hxi⟩ hx
  rcases step_cases hx with ⟨d, -, rfl⟩ | ⟨-, rfl⟩ | ⟨-, hp, -, rfl⟩ | ⟨-, hp, hc', rfl⟩ |
    ⟨-, hp, rfl⟩ | ⟨c, -, hp, rfl⟩ | ⟨c, -, hp, rfl⟩ | ⟨c, -, hp, hd, rfl⟩ |
    ⟨c, t, envs, sched, -, hp, -, rfl⟩ | ⟨c, r, rest, err, -, hp, -, rfl⟩
  · exact ⟨hxc, hxpc, hxb, hxs, hxi⟩
  · exact ⟨rfl, hxpc, hxb, hxs, hxi⟩
  · exact ⟨hxc, Or.inr rfl, hxb, hxs, hxi⟩
  · rw [hxc] at hc'; exact absurd hc' (by simp)
  all_goals (rcases hxpc with h1 | h1 <;> rw [hp] at h1 <;> exact absurd h1 (by simp))

/-- The insert loop answers `errs` one by one. -/
theorem exec_queries (c : Nat) :
    ∀ (rs : List PingResult) (errs : List Bool) (x : State), x.pc = .inserting c rs →
      errs.length = rs.length → (x.cancelled = true → ∀ e ∈ errs, e = true) →
      exec x (errs.map Event.queried) =
        some { x with pc := .inserting c []
                      inserts := x.inserts ++ List.zipWith
                        (fun r e => { row := Row.ofResult r, ctxDone := x.cancelled, failed := e })
                        rs errs } := by
  intro rs
  induction rs with
  | nil =>
    intro errs x hpc hlen _
    have : errs = [] := List.length_eq_zero.1 hlen
    subst this
    cases x
    simp only at hpc
    simp [exec, hpc]
  | cons r rest ih =>
    intro errs x hpc hlen hall
    cases errs with
    | nil => simp at hlen
    | cons e es =>
      have hg : (x.cancelled && !e) = false := by
        cases hc : x.cancelled
        · rfl
        · have := hall hc e (List.mem_cons_self _ _)
          simp [this]
      have hstep : step x (.queried e) =
          some { x with pc := .inserting c rest
                        inserts := x.inserts ++
                          [{ row := Row.ofResult r, ctxDone := x.cancelled, failed := e }] } := by
        simp [step, runRound, hpc, hg]
      simp only [List.map_cons, exec, hstep, Option.some_bind]
      have hih := ih es
        { x with pc := .inserting c rest
                 inserts := x.inserts ++
                   [{ row := Row.ofResult r, ctxDone := x.cancelled, failed := e }] }
        rfl (by simpa using hlen) (fun hc e' he' => hall hc e' (List.mem_cons_of_mem _ he'))
      rw [hih]
      simp

/-- From the insert loop with the token cancelled, the round runs to its end
and the loop exits. -/
theorem exec_drain (c : Nat) (rs : List PingResult) (x : State) (hpc : x.pc = .inserting c rs)
    (hc : x.cancelled = true) :
    ∃ x', exec x ((List.replicate rs.length true).map Event.queried ++
        [.advance, .advance, .advance]) = some x' ∧ x'.pc = .stopped := by
  rw [exec_append, exec_queries c rs (List.replicate rs.length true) x hpc (by simp)
    (fun _ e he => (List.mem_replicate.1 he).2)]
  simp [exec, step, runRound, timeoutDone, hc]

theorem exec_cons_of_step {x x1 x' : State} {e : Event} {es : List Event}
    (h1 : step x e = some x1) (h2 : exec x1 es = some x') : exec x (e :: es) = some x' := by
  simp [exec, h1, h2]

theorem stop_from_probing (x : State) (c t : Nat) (hpc : x.pc = .probing c t)
    (hc : x.cancelled = true) :
    ∃ (evs : List Event) (x' : State), exec x evs = some x' ∧ x'.pc = .stopped := by
  have hperm : completeSchedule x.manager.pingers.length (List.range x.manager.pingers.length) :=
    List.Perm.refl _
  have h1 : step x (.probed cancelledProbe (List.range x.manager.pingers.length)) =
      some { x with
        pc := .inserting c
          (x.manager.runOnce t cancelledProbe (List.range x.manager.pingers.length)).1
        manager :=
          (x.manager.runOnce t cancelledProbe (List.range x.manager.pingers.length)).2 } := by
    simp [step, runRound, hpc, hperm]
  obtain ⟨x', hx', hst⟩ := exec_drain c _ _ rfl (show
    ({ x with
        pc := .inserting c
          (x.manager.runOnce t cancelledProbe (List.range x.manager.pingers.length)).1
        manager :=
          (x.manager.runOnce t cancelledProbe (List.range x.manager.pingers.length)).2 }
      : State).cancelled = true from hc)
  exact ⟨_, x', exec_cons_of_step h1 hx', hst⟩

theorem stop_from_runOnceEntry (x : State) (c : Nat) (hpc : x.pc = .runOnceEntry c)
    (hc : x.cancelled = true) :
    ∃ (evs : List Event) (x' : State), exec x evs = some x' ∧ x'.pc = .stopped := by
  have h1 : step x .advance =
      some { x with pc := .probing c x.now
                    stamps := { created := c, startedAt := x.now } :: x.stamps } := by
    simp [step, runRound, hpc]
  obtain ⟨evs, x', hx', hst⟩ := stop_from_probing _ c x.now rfl (show
    ({ x with pc := .probing c x.now
              stamps := { created := c, startedAt := x.now } :: x.stamps }
      : State).cancelled = true from hc)
  exact ⟨_, x', exec_cons_of_step h1 hx', hst⟩

theorem stop_from_roundEntry (x : State) (hpc : x.pc = .roundEntry)
    (hc : x.cancelled = true) :
    ∃ (evs : List Event) (x' : State), exec x evs = some x' ∧ x'.pc = .stopped := by
  have h1 : step x .advance = some { x with pc := .runOnceEntry x.now } := by
    simp [step, runRound, hpc]
  obtain ⟨evs, x', hx', hst⟩ := stop_from_runOnceEntry _ x.now rfl (show
    ({ x with pc := .runOnceEntry x.now } : State).cancelled = true from hc)
  exact ⟨_, x', exec_cons_of_step h1 hx', hst⟩

theorem afterCancel_step (s0 : State) (x : State) (e : Event) (x' : State)
    (hQ : AfterCancel s0 x) (h : step x e = some x') : AfterCancel s0 x' := by
  obtain ⟨hxc, hxb, hat⟩ := hQ
  rcases step_cases h with ⟨d, -, rfl⟩ | ⟨-, rfl⟩ | ⟨-, hp, -, rfl⟩ | ⟨-, hp, hc', rfl⟩ |
    ⟨-, hp, rfl⟩ | ⟨c, -, hp, rfl⟩ | ⟨c, -, hp, rfl⟩ | ⟨c, -, hp, hd, rfl⟩ |
    ⟨c, t, envs, sched, -, hp, -, rfl⟩ | ⟨c, r, rest, err, -, hp, herr, rfl⟩
  · refine ⟨hxc, hxb, ?_⟩
    cases hpc : x.pc <;> simp only [hpc, AfterCancelAt] at hat ⊢ <;> exact hat
  · refine ⟨rfl, hxb, ?_⟩
    cases hpc : x.pc <;> simp only [hpc, AfterCancelAt] at hat ⊢ <;> exact hat
  · simp only [hp, AfterCancelAt] at hat
    exact ⟨hxc, hxb, hat⟩
  · rw [hxc] at hc'; cases hc'
  · simp only [hp, AfterCancelAt] at hat
    exact ⟨hxc, hxb, hat⟩
  · simp only [hp, AfterCancelAt] at hat
    exact ⟨hxc, hxb, hat⟩
  · simp only [hp, AfterCancelAt] at hat
    obtain ⟨done, hout, hins⟩ := hat
    exact ⟨hxc, hxb, done, by simpa using hout, hins⟩
  · simp only [hp, AfterCancelAt] at hat
    exact ⟨hxc, hxb, hat⟩
  · simp only [hp, AfterCancelAt] at hat
    obtain ⟨hins, hurl, hpre⟩ := hat
    refine ⟨hxc, hxb, [], ?_, by simpa using hins⟩
    have hu : (x.manager.runOnce t envs sched).1.map (·.url) = s0.manager.pingers.map (·.url) := by
      rw [runOnce_map_url, hurl]
    cases hs0 : s0.pc <;> simp only [hs0, Pc.beforeResults] at hpre <;>
      simp only [outstanding, hs0, List.nil_append] <;> exact hu
  · simp only [hp, AfterCancelAt] at hat
    obtain ⟨done, hout, hins⟩ := hat
    refine ⟨hxc, hxb, done ++ [r], by simpa using hout, ?_⟩
    simp only [hins, herr hxc, hxc, List.map_append, List.map_cons, List.map_nil,
      List.append_assoc, cancelledAttempt]

theorem afterCancel_init (s : State) (hc : s.cancelled = true)
    (hfl : s.pc ≠ .loopCheck ∧ s.pc ≠ .stopped) : AfterCancel s s := by
  refine ⟨hc, rfl, ?_⟩
  cases hpc : s.pc with
  | loopCheck => exact absurd hpc hfl.1
  | stopped => exact absurd hpc hfl.2
  | roundEntry => simp [AfterCancelAt, hpc, Pc.beforeResults]
  | runOnceEntry c => simp [AfterCancelAt, hpc, Pc.beforeResults]
  | probing c t => simp [AfterCancelAt, hpc, Pc.beforeResults]
  | inserting c rest => exact ⟨[], by simp [outstanding, hpc], by simp⟩
  | waitDone c => exact ⟨[], by simp [outstanding, hpc], by simp⟩

theorem begins_length_step (x : State) (e : Event) (x' : State) (h : step x e = some x') :
    x.begins.length ≤ x'.begins.length := by
  rcases step_cases h with ⟨d, -, rfl⟩ | ⟨-, rfl⟩ | ⟨-, hp, -, rfl⟩ | ⟨-, hp, hc', rfl⟩ |
    ⟨-, hp, rfl⟩ | ⟨c, -, hp, rfl⟩ | ⟨c, -, hp, rfl⟩ | ⟨c, -, hp, hd, rfl⟩ |
    ⟨c, t, envs, sched, -, hp, -, rfl⟩ | ⟨c, r, rest, err, -, hp, herr, rfl⟩ <;> simp

theorem insertProgress_step (s0 : State) (c : Nat) (rs : List PingResult)
    (x : State) (e : Event) (x' : State)
    (hP : InsertProgress s0 c rs x) (h : step x e = some x') : InsertProgress s0 c rs x' := by
  rcases hP with hlt | ⟨hxb, done, todo, hrs, hrows, hpc⟩
  · exact Or.inl (Nat.lt_of_lt_of_le hlt (begins_length_step x e x' h))
  rcases step_cases h with ⟨d, -, rfl⟩ | ⟨-, rfl⟩ | ⟨-, hp, -, rfl⟩ | ⟨-, hp, hc', rfl⟩ |
    ⟨-, hp, rfl⟩ | ⟨c', -, hp, rfl⟩ | ⟨c', -, hp, rfl⟩ | ⟨c', -, hp, hd, rfl⟩ |
    ⟨c', t, envs, sched, -, hp, -, rfl⟩ | ⟨c', r, rest, err, -, hp, herr, rfl⟩
  · exact Or.inr ⟨hxb, done, todo, hrs, hrows, hpc⟩
  · exact Or.inr ⟨hxb, done, todo, hrs, hrows, hpc⟩
  · refine Or.inr ⟨hxb, done, todo, hrs, hrows, Or.inr ⟨?_, Or.inr (Or.inr rfl)⟩⟩
    rcases hpc with h1 | ⟨h1, -⟩
    · rw [hp] at h1; cases h1
    · exact h1
  · refine Or.inl ?_
    simp [hxb]
  · rcases hpc with h1 | ⟨-, h1 | h1 | h1⟩ <;> rw [hp] at h1 <;> cases h1
  · rcases hpc with h1 | ⟨-, h1 | h1 | h1⟩ <;> rw [hp] at h1 <;> cases h1
  · rcases hpc with h1 | ⟨-, h1 | h1 | h1⟩
    · rw [hp] at h1
      cases h1
      exact Or.inr ⟨hxb, done, [], hrs, hrows, Or.inr ⟨rfl, Or.inl rfl⟩⟩
    all_goals (rw [hp] at h1; cases h1)
  · rcases hpc with h1 | ⟨h0, h1 | h1 | h1⟩
    · rw [hp] at h1; cases h1
    · exact Or.inr ⟨hxb, done, todo, hrs, hrows, Or.inr ⟨h0, Or.inr (Or.inl rfl)⟩⟩
    all_goals (rw [hp] at h1; cases h1)
  · rcases hpc with h1 | ⟨-, h1 | h1 | h1⟩ <;> rw [hp] at h1 <;> cases h1
  · rcases hpc with h1 | ⟨-, h1 | h1 | h1⟩
    · rw [hp] at h1
      cases h1
      refine Or.inr ⟨hxb, done ++ [r], rest, by simpa using hrs, ?_, Or.inl rfl⟩
      simp [hrows]
    all_goals (rw [hp] at h1; cases h1)

/-! ## Properties of the scheduler -/

/-- What a step that happens tells about the boundary check: at the check
a round begins iff the token is not cancelled and the loop exits iff it is,
a round begins at no other step, the loop exits at no other step, and after
a cancellation with no round in flight no round begins. -/
theorem loop_check_step_sound (s : State) (e : Event) (s' : State)
    (h : step s e = some s') :
    (s.pc = .loopCheck → e = .advance →
      ((s'.pc = .roundEntry ∧ s'.begins = s.now :: s.begins) ↔ s.cancelled = false) ∧
      ((s'.pc = .stopped ∧ s'.begins = s.begins) ↔ s.cancelled = true)) ∧
    (s'.begins ≠ s.begins →
      s.pc = .loopCheck ∧ e = .advance ∧ s.cancelled = false ∧ s'.pc = .roundEntry) ∧
    (s'.pc = .stopped → s.pc ≠ .stopped →
      s.pc = .loopCheck ∧ e = .advance ∧ s.cancelled = true) ∧
    (s.cancelled = true → (s.pc = .loopCheck ∨ s.pc = .stopped) →
      ∀ (evs : List Event) (s'' : State), exec s' evs = some s'' →
        s''.begins = s.begins ∧ (s''.pc = .loopCheck ∨ s''.pc = .stopped)) := by
  refine ⟨?_, ?_, ?_, ?_⟩
  · intro hpc he
    rcases step_cases h with ⟨d, he', -⟩ | ⟨he', -⟩ | ⟨-, -, hc, rfl⟩ | ⟨-, -, hc, rfl⟩ |
      ⟨-, hp, -⟩ | ⟨c, -, hp, -⟩ | ⟨c, -, hp, -⟩ | ⟨c, -, hp, -, -⟩ |
      ⟨c, t, envs, sched, -, hp, -, -⟩ | ⟨c, r, rest, err, -, hp, -, -⟩
    · rw [he] at he'; cases he'
    · rw [he] at he'; cases he'
    · simp [hc]
    · simp [hc]
    all_goals (rw [hpc] at hp; cases hp)
  · intro hne
    rcases step_cases h with ⟨d, -, rfl⟩ | ⟨-, rfl⟩ | ⟨-, hp, -, rfl⟩ | ⟨he, hp, hc, rfl⟩ |
      ⟨-, hp, rfl⟩ | ⟨c, -, hp, rfl⟩ | ⟨c, -, hp, rfl⟩ | ⟨c, -, hp, hd, rfl⟩ |
      ⟨c, t, envs, sched, -, hp, -, rfl⟩ | ⟨c, r, rest, err, -, hp, -, rfl⟩
    · exact absurd rfl hne
    · exact absurd rfl hne
    · exact absurd rfl hne
    · exact ⟨hp, he, hc, rfl⟩
    all_goals exact absurd rfl hne
  · intro hst hns
    rcases step_cases h with ⟨d, -, rfl⟩ | ⟨-, rfl⟩ | ⟨he, hp, hc, rfl⟩ | ⟨-, hp, -, rfl⟩ |
      ⟨-, hp, rfl⟩ | ⟨c, -, hp, rfl⟩ | ⟨c, -, hp, rfl⟩ | ⟨c, -, hp, hd, rfl⟩ |
      ⟨c, t, envs, sched, -, hp, -, rfl⟩ | ⟨c, r, rest, err, -, hp, -, rfl⟩
    · exact absurd hst hns
    · exact absurd hst hns
    · exact ⟨hp, he, hc⟩
    all_goals cases hst
  · intro hc hpc evs s'' hx
    have h2 : exec s (e :: evs) = some s'' := by simp [exec, h, hx]
    have := cancelled_idle_frozen s hc hpc (e :: evs) s'' h2
    exact ⟨this.2.2.1, this.2.1⟩

/-- C7. At a boundary check the control goroutine always takes its step: it
starts a round when the long-lived token is not cancelled at that check, and
when the token is cancelled the loop terminates at that check and no further
round ever starts (before the first round included).  Conversely, of the
steps that happen, a round begins only at a boundary check with the token
not cancelled, and the loop exits only at a boundary check with the token
cancelled. -/
theorem loop_check_decides_round (s : State) :
    (s.pc = .loopCheck → s.cancelled = false →
      step s .advance = some { s with pc := .roundEntry, begins := s.now :: s.begins }) ∧
    (s.pc = .loopCheck → s.cancelled = true →
      step s .advance = some { s with pc := .stopped } ∧
      ∀ (evs : List Event) (s'' : State), exec s evs = some s'' →
        s''.begins = s.begins ∧ (s''.pc = .loopCheck ∨ s''.pc = .stopped)) ∧
    (∀ (e : Event) (s' : State), step s e = some s' →
      (s.pc = .loopCheck → e = .advance →
        ((s'.pc = .roundEntry ∧ s'.begins = s.now :: s.begins) ↔ s.cancelled = false) ∧
        ((s'.pc = .stopped ∧ s'.begins = s.begins) ↔ s.cancelled = true)) ∧
      (s'.begins ≠ s.begins →
        s.pc = .loopCheck ∧ e = .advance ∧ s.cancelled = false ∧ s'.pc = .roundEntry) ∧
      (s'.pc = .stopped → s.pc ≠ .stopped →
        s.pc = .loopCheck ∧ e = .advance ∧ s.cancelled = true) ∧
      (s.cancelled = true → (s.pc = .loopCheck ∨ s.pc = .stopped) →
        ∀ (evs : List Event) (s'' : State), exec s' evs = some s'' →
          s''.begins = s.begins ∧ (s''.pc = .loopCheck ∨ s''.pc = .stopped))) := by
  refine ⟨?_, ?_, ?_⟩
  · intro hpc hc
    simp [step, hpc, hc]
  · intro hpc hc
    refine ⟨by simp [step, hpc, hc], ?_⟩
    intro evs s'' hx
    have := cancelled_idle_frozen s hc (Or.inl hpc) evs s'' hx
    exact ⟨this.2.2.1, this.2.1⟩
  · intro e s' h
    exact loop_check_step_sound s e s' h

/-- C5. Along every run of `runPings`, each round begins at least `D` (one
second) after the round before it began.  `runRound` returns only when its
deadline signal is done, that deadline is at least `D` after the round
began, and when the signal is done because the long-lived token was
cancelled no further round ever begins. -/
theorem cadence_floor (config : Config) (t0 : Nat) (evs : List Event) (s : State)
    (h : exec (runPings config t0) evs = some s) :
    List.Chain' (fun later earlier : Nat => earlier + D ≤ later) s.begins ∧
    ∀ (c : Nat) (e : Event) (s' : State), s.pc = .waitDone c → step s e = some s' →
      s'.pc ≠ .waitDone c →
        s'.pc = .loopCheck ∧ timeoutDone s c = true ∧
        (∀ b ∈ s.begins.head?, b + D ≤ deadline c) ∧
        (s.cancelled = false → ∀ b ∈ s.begins.head?, b + D ≤ s.now) ∧
        (s.cancelled = true → ∀ (evs' : List Event) (s'' : State),
          exec s' evs' = some s'' → s''.begins = s.begins) := by
  have hT := timed_reachable config t0 evs s h
  refine ⟨hT.1, ?_⟩
  intro c e s' hpc hstep hne
  have hat := hT.2.2.2.2
  simp only [hpc, TimedAt] at hat
  rcases step_cases hstep with ⟨d, -, rfl⟩ | ⟨-, rfl⟩ | ⟨-, hp, -, rfl⟩ | ⟨-, hp, -, rfl⟩ |
    ⟨-, hp, rfl⟩ | ⟨c', -, hp, rfl⟩ | ⟨c', -, hp, rfl⟩ | ⟨c', -, hp, hd, rfl⟩ |
    ⟨c', t, envs, sched, -, hp, -, rfl⟩ | ⟨c', r, rest, err, -, hp, -, rfl⟩
  · exact absurd hpc hne
  · exact absurd hpc hne
  · rw [hpc] at hp; cases hp
  · rw [hpc] at hp; cases hp
  · rw [hpc] at hp; cases hp
  · rw [hpc] at hp; cases hp
  · rw [hpc] at hp; cases hp
  · rw [hpc] at hp
    cases hp
    refine ⟨rfl, ?_, ?_, ?_, ?_⟩
    · simpa [timeoutDone, deadline] using hd
    · intro b hb
      exact Nat.add_le_add_right (hat.1 b hb) D
    · intro hc b hb
      rcases hd with hd | hd
      · rw [hc] at hd; cases hd
      · exact Nat.le_trans (Nat.add_le_add_right (hat.1 b hb) D) hd
    · intro hc evs' s'' hx
      exact (cancelled_idle_frozen { s with pc := .loopCheck } hc (Or.inl rfl) evs' s'' hx).2.2.1
  · rw [hpc] at hp; cases hp
  · rw [hpc] at hp; cases hp

/-- C6, as the code has it. Along every run of `runPings`, the `startingAt`
of each round is at least `D` after the clock reading at which the round
before it created its deadline signal, and not earlier than that round's
own `startingAt`; the `startingAt` of a round is not earlier than the
creation of its deadline signal, and it is the `time` of every row the round
hands to the database. -/
theorem startedAt_spacing_from_deadline_creation (config : Config) (t0 : Nat)
    (evs : List Event) (s : State) (h : exec (runPings config t0) evs = some s) :
    List.Chain' (fun later earlier : RoundStamp =>
      earlier.created + D ≤ later.startedAt ∧ earlier.startedAt ≤ later.startedAt) s.stamps ∧
    (∀ st ∈ s.stamps, st.created ≤ st.startedAt) ∧
    ∀ a ∈ s.inserts, ∃ st ∈ s.stamps, a.row.time = st.startedAt := by
  have hT := timed_reachable config t0 evs s h
  exact ⟨hT.2.1, hT.2.2.1, (stamped_reachable config t0 evs s h).1⟩

/-- C6 fails as stated: in a run of two rounds over the same endpoint with no
failed probe and no failed insert, the two `startingAt` readings are less
than `D` apart. -/
theorem startedAt_spacing_below_D :
    ¬ ∀ (evs : List Event) (s : State), exec (runPings oneUrl 0) evs = some s →
      (∀ a ∈ s.inserts, a.failed = false ∧ a.row.had_error = false) →
      List.Chain' (fun later earlier : RoundStamp =>
        earlier.startedAt + D ≤ later.startedAt) s.stamps := by
  intro hall
  have h := hall twoRounds afterTwoRounds (by decide) (by decide)
  simp [afterTwoRounds, D] at h

/-- C3. From the head of the insert loop of a round with the outcomes `rs`,
every pattern `errs` of insert failures the database can answer leads the
loop to its end with exactly one attempt per outcome, in outcome order, the
`k`-th failing iff `errs` says so; and in every run, while no later round has
begun, the rows handed to the database are those of a prefix of `rs`, in
order, each once, the loop going on with the rest whatever failed. -/
theorem runRound_inserts_each_outcome_once (s : State) (c : Nat) (rs : List PingResult)
    (hpc : s.pc = .inserting c rs) :
    (∀ errs : List Bool, errs.length = rs.length →
      (s.cancelled = true → ∀ e ∈ errs, e = true) →
      ∃ s', exec s (errs.map Event.queried ++ [.advance]) = some s' ∧ s'.pc = .waitDone c ∧
        s'.begins = s.begins ∧
        s'.inserts.map (·.row) = s.inserts.map (·.row) ++ rs.map Row.ofResult ∧
        s'.inserts.map (·.failed) = s.inserts.map (·.failed) ++ errs) ∧
    (∀ (evs : List Event) (s' : State), exec s evs = some s' → s'.begins = s.begins →
      ∃ done todo, rs = done ++ todo ∧
        s'.inserts.map (·.row) = s.inserts.map (·.row) ++ done.map Row.ofResult ∧
        (s'.pc = .inserting c todo ∨
          (todo = [] ∧ (s'.pc = .waitDone c ∨ s'.pc = .loopCheck ∨ s'.pc = .stopped)))) := by
  constructor
  · intro errs hlen hall
    refine ⟨{ s with pc := .waitDone c
                     inserts := s.inserts ++ List.zipWith
                       (fun r e => { row := Row.ofResult r, ctxDone := s.cancelled, failed := e })
                       rs errs }, ?_, rfl, rfl, ?_, ?_⟩
    · rw [exec_append, exec_queries c rs errs s hpc hlen hall]
      simp [exec, step, runRound]
    · simp only [List.map_append, List.append_cancel_left_eq]
      clear hall hpc
      induction rs generalizing errs with
      | nil => simp
      | cons r rest ih =>
        cases errs with
        | nil => simp at hlen
        | cons e es => simpa using ih es (by simpa using hlen)
    · simp only [List.map_append, List.append_cancel_left_eq]
      clear hall hpc
      induction rs generalizing errs with
      | nil => simpa using hlen
      | cons r rest ih =>
        cases errs with
        | nil => simp at hlen
        | cons e es => simpa using ih es (by simpa using hlen)
  · intro evs s' hx hb
    have hP : InsertProgress s c rs s' :=
      exec_invariant (InsertProgress s c rs) (insertProgress_step s c rs) evs s s'
        (Or.inr ⟨rfl, [], rs, rfl, by simp, Or.inl hpc⟩) hx
    rcases hP with hlt | ⟨-, hrest⟩
    · rw [hb] at hlt; exact absurd hlt (Nat.lt_irrefl _)
    · exact hrest

/-- C4, as the code has it. When the long-lived token is cancelled while a
round is in flight, the round is not aborted: the loop can and does exit only
after one insert attempt has been issued for every outcome the round had
still to insert, in order, and no further round begins.  The inserts are
issued with the cancelled token itself, and each of them fails. -/
theorem round_completes_after_cancel (s : State) (hc : s.cancelled = true)
    (hfl : s.pc ≠ .loopCheck ∧ s.pc ≠ .stopped) :
    (∃ (evs : List Event) (s' : State), exec s evs = some s' ∧ s'.pc = .stopped) ∧
    (∀ (evs : List Event) (s' : State), exec s evs = some s' → s'.pc = .stopped →
      s'.begins = s.begins ∧
      ∃ rs, outstanding s rs ∧ s'.inserts = s.inserts ++ rs.map cancelledAttempt) := by
  constructor
  · cases hpc : s.pc with
    | loopCheck => exact absurd hpc hfl.1
    | stopped => exact absurd hpc hfl.2
    | roundEntry => exact stop_from_roundEntry s hpc hc
    | runOnceEntry c => exact stop_from_runOnceEntry s c hpc hc
    | probing c t => exact stop_from_probing s c t hpc hc
    | inserting c rest =>
      obtain ⟨x', hx', hst⟩ := exec_drain c rest s hpc hc
      exact ⟨_, x', hx', hst⟩
    | waitDone c =>
      refine ⟨[.advance, .advance], { s with pc := .stopped }, ?_, rfl⟩
      simp [exec, step, runRound, hpc, timeoutDone, hc]
  · intro evs s' hx hst
    have hQ : AfterCancel s s' :=
      exec_invariant (AfterCancel s) (afterCancel_step s) evs s s' (afterCancel_init s hc hfl) hx
    obtain ⟨-, hb, hat⟩ := hQ
    simp only [hst, AfterCancelAt] at hat
    exact ⟨hb, hat⟩

/-- C4 fails as stated: in a run of one round over one endpoint, the
interrupt arrives after the probe has succeeded; the insert of that outcome
is issued with the cancelled token and fails, and the database cannot answer
it with success. -/
theorem insert_after_cancel_fails :
    (¬ ∀ (evs : List Event) (s : State), exec (runPings oneUrl 0) evs = some s →
      ∀ a ∈ s.inserts, ¬ (a.ctxDone = true ∧ a.failed = true)) ∧
    exec (runPings oneUrl 0) (cancelMidRound ++ [.queried false]) = none := by
  constructor
  · intro hall
    have h := hall (cancelMidRound ++ [.queried true, .advance, .advance, .advance])
      { midRoundCancelled with
        pc := .stopped
        inserts := [cancelledAttempt
          { hadError := false, duration := some 50000000, url := "http://a", startedAt := 0 }] }
      (by decide)
    simp [cancelledAttempt] at h
  · decide

/-! ## Properties of the round executor and the probe -/

/-- C1. A manager built by `NewPingManager` from `N` URLs (duplicates
allowed), in its first round or after any number of earlier rounds, returns
from `runOnce` exactly `N` results, and result `i` carries the `i`-th
configured URL, whatever the probes and the schedule do. -/
theorem runOnce_length_and_order (config : Config)
    (history : List (Nat × (Nat → ProbeEnv) × List Nat))
    (startingAt : Nat) (envs : Nat → ProbeEnv) (sched : List Nat) :
    (((NewPingManager config).afterRounds history).runOnce startingAt envs sched).1.length
        = config.Urls.length ∧
      ∀ i : Nat,
        ((((NewPingManager config).afterRounds history).runOnce startingAt envs sched).1[i]?).map
          (·.url) = config.Urls[i]? := by
  have hurl : (((NewPingManager config).afterRounds history).runOnce startingAt envs sched).1.map
      (·.url) = config.Urls := by
    rw [runOnce_map_url, afterRounds_url]
    simp [NewPingManager, Function.comp_def]
  constructor
  · have := congrArg List.length hurl
    simpa using this
  · intro i
    rw [← List.getElem?_map, hurl]

/-- C2 (the code departs from the claim). A probe whose request is built and
answered but whose `Body.Close()` returns an error yields an outcome with
`hadError = true` and a duration that is present. -/
theorem runOnce_close_error_keeps_duration :
    ((NewPingManager { ConnectionString := "", Urls := ["http://a"] }).runOnce 7
        (fun _ => { startNow := 10, newRequestErr := none, doErr := none,
                    closeErr := some "close failed", endNow := 60 }) [0]).1
      = [{ hadError := true, duration := some 50, url := "http://a", startedAt := 7 }] := by
  decide

/-- C9. The outcome `runOnce` returns for endpoint `i` depends only on
endpoint `i`'s own check of that round: two rounds over the same endpoints
that agree on the check of endpoint `i` return the same `hadError` and the
same duration for it, however the other checks, the schedules, the round
start times and the state left in the pingers by earlier rounds differ. -/
theorem runOnce_outcome_isolated (m₁ m₂ : PingManager) (t₁ t₂ : Nat)
    (envs₁ envs₂ : Nat → ProbeEnv) (sched₁ sched₂ : List Nat) (i : Nat)
    (hurl : m₁.pingers.map (·.url) = m₂.pingers.map (·.url))
    (hs₁ : completeSchedule m₁.pingers.length sched₁)
    (hs₂ : completeSchedule m₂.pingers.length sched₂)
    (hi : i < m₁.pingers.length)
    (hsame : envs₁ i = envs₂ i) :
    ∃ r₁ r₂, (m₁.runOnce t₁ envs₁ sched₁).1[i]? = some r₁ ∧
      (m₂.runOnce t₂ envs₂ sched₂).1[i]? = some r₂ ∧
      r₁.hadError = r₂.hadError ∧ r₁.duration = r₂.duration ∧
      r₁.duration.isSome = r₂.duration.isSome ∧ r₁.url = r₂.url := by
  have hlen : m₁.pingers.length = m₂.pingers.length := by
    simpa using congrArg List.length hurl
  have hi₂ : i < m₂.pingers.length := hlen ▸ hi
  have hu : m₁.pingers[i].url = m₂.pingers[i].url := by
    have := congrArg (fun l => l[i]?) hurl
    simpa [List.getElem?_map, List.getElem?_eq_getElem hi, List.getElem?_eq_getElem hi₂] using this
  refine ⟨PingResult.ofPinger t₁ (Pinger.Ping (envs₁ i) m₁.pingers[i]),
    PingResult.ofPinger t₂ (Pinger.Ping (envs₂ i) m₂.pingers[i]), ?_, ?_, ?_⟩
  · rw [runOnce_getElem? m₁ t₁ envs₁ sched₁ hs₁, List.getElem?_eq_getElem hi]; rfl
  · rw [runOnce_getElem? m₂ t₂ envs₂ sched₂ hs₂, List.getElem?_eq_getElem hi₂]; rfl
  · rw [Ping_reset (envs₁ i), Ping_reset (envs₂ i), hsame, hu]
    simp [PingResult.ofPinger]

/-- C10. For every probe of a round the outcome is failed exactly when
request construction fails, or the request (once built) fails, or closing
the body (once answered) fails; an outcome is returned in every case, and
when the three steps succeed it is succeeded and carries the measured
duration `end.Sub(start)`. -/
theorem probe_failed_iff_step_failed (m : PingManager) (t : Nat)
    (envs : Nat → ProbeEnv) (sched : List Nat) (i : Nat)
    (hs : completeSchedule m.pingers.length sched) (hi : i < m.pingers.length) :
    ∃ r, (m.runOnce t envs sched).1[i]? = some r ∧
      (r.hadError = true ↔
        ((envs i).newRequestErr ≠ none ∨
          ((envs i).newRequestErr = none ∧ (envs i).doErr ≠ none) ∨
          ((envs i).newRequestErr = none ∧ (envs i).doErr = none ∧
            (envs i).closeErr ≠ none))) ∧
      ((envs i).newRequestErr = none → (envs i).doErr = none → (envs i).closeErr = none →
        r.hadError = false ∧
          r.duration = some (Sub (envs i).endNow (envs i).startNow)) := by
  refine ⟨PingResult.ofPinger t (Pinger.Ping (envs i) m.pingers[i]), ?_, ?_, ?_⟩
  · rw [runOnce_getElem? m t envs sched hs, List.getElem?_eq_getElem hi]; rfl
  · unfold Pinger.Ping PingResult.ofPinger
    cases h1 : (envs i).newRequestErr <;> cases h2 : (envs i).doErr <;>
      cases h3 : (envs i).closeErr <;> simp
  · intro h1 h2 h3
    unfold Pinger.Ping PingResult.ofPinger
    simp [h1, h2, h3]

/-! ## Properties of start-up -/

/-- C8. When connecting, the connectivity ping or the migrations fail,
`connectToDatabase` returns an error and no connection, `run` returns an
error, and `runPings` is never called, so the loop is never entered;
`runPings` is called only after connect, ping and every step of the
migrations have succeeded. -/
theorem startup_failure_never_schedules (env : BootEnv) (t0 : Nat) :
    ((runMigrations env).2 ≠ none ↔
      (env.newMigrator ≠ none ∨ env.loadMigrations ≠ none ∨ env.migrate ≠ none)) ∧
    ((env.connect ≠ none ∨ env.ping ≠ none ∨ (runMigrations env).2 ≠ none) →
      (connectToDatabase env env.config).2.1 = none ∧
      (connectToDatabase env env.config).2.2 ≠ none ∧
      (run env t0).2.2 ≠ none ∧ (run env t0).2.1 = none ∧ Call.runPings ∉ (run env t0).1) ∧
    ((Call.runPings ∈ (run env t0).1 ∨ (run env t0).2.1 ≠ none) →
      env.connect = none ∧ env.ping = none ∧ env.newMigrator = none ∧
      env.loadMigrations = none ∧ env.migrate = none ∧
      (connectToDatabase env env.config).2.1 ≠ none ∧
      (run env t0).2.1 = some (runPings env.config t0)) := by
  refine ⟨?_, ?_, ?_⟩
  · unfold runMigrations
    cases env.newMigrator <;> cases env.loadMigrations <;> cases env.migrate <;> simp
  · unfold run connectToDatabase runMigrations
    cases env.readInConfig <;> cases env.unmarshal <;> cases env.connect <;> cases env.ping <;>
      cases env.newMigrator <;> cases env.loadMigrations <;> cases env.migrate <;> simp
  · unfold run connectToDatabase runMigrations
    cases env.readInConfig <;> cases env.unmarshal <;> cases env.connect <;> cases env.ping <;>
      cases env.newMigrator <;> cases env.loadMigrations <;> cases env.migrate <;> simp

/-! ## The theorems at concrete inputs -/

theorem runOnce_outcome_isolated_witness :
    usedManager.pingers.map (·.url) = (NewPingManager ⟨"", ["http://a", "http://b"]⟩).pingers.map
        (·.url) ∧
      completeSchedule usedManager.pingers.length [1, 0] ∧
      mixedProbes 1 = okProbe 1 ∧
      ∃ r₁ r₂, (usedManager.runOnce 3 mixedProbes [1, 0]).1[1]? = some r₁ ∧
        ((NewPingManager ⟨"", ["http://a", "http://b"]⟩).runOnce 9 okProbe [0, 1]).1[1]?
          = some r₂ ∧
        r₁.hadError = r₂.hadError ∧ r₁.duration = r₂.duration ∧
        r₁.duration.isSome = r₂.duration.isSome ∧ r₁.url = r₂.url :=
  ⟨by decide, by decide, by decide,
    runOnce_outcome_isolated usedManager (NewPingManager ⟨"", ["http://a", "http://b"]⟩) 3 9
      mixedProbes okProbe [1, 0] [0, 1] 1 (by decide) (by decide) (by decide) (by decide)
      (by decide)⟩

theorem probe_failed_iff_step_failed_witness :
    completeSchedule usedManager.pingers.length [1, 0] ∧ 0 < usedManager.pingers.length ∧
      ∃ r, (usedManager.runOnce 3 mixedProbes [1, 0]).1[0]? = some r ∧
        (r.hadError = true ↔
          ((mixedProbes 0).newRequestErr ≠ none ∨
            ((mixedProbes 0).newRequestErr = none ∧ (mixedProbes 0).doErr ≠ none) ∨
            ((mixedProbes 0).newRequestErr = none ∧ (mixedProbes 0).doErr = none ∧
              (mixedProbes 0).closeErr ≠ none))) ∧
        ((mixedProbes 0).newRequestErr = none → (mixedProbes 0).doErr = none →
          (mixedProbes 0).closeErr = none →
          r.hadError = false ∧
            r.duration = some (Sub (mixedProbes 0).endNow (mixedProbes 0).startNow)) :=
  ⟨by decide, by decide,
    probe_failed_iff_step_failed usedManager 3 mixedProbes [1, 0] 0 (by decide) (by decide)⟩

theorem runRound_inserts_each_outcome_once_witness :
    twoToInsert.pc = .inserting 0
        [{ hadError := false, duration := some 50000000, url := "http://a", startedAt := 5 },
         { hadError := true, duration := none, url := "http://b", startedAt := 5 }] ∧
      ∃ s', exec twoToInsert ([true, false].map Event.queried ++ [.advance]) = some s' ∧
        s'.pc = .waitDone 0 ∧ s'.begins = twoToInsert.begins ∧
        s'.inserts.map (·.row) = twoToInsert.inserts.map (·.row) ++
          [{ time := 5, duration := some 50000000, url := "http://a", had_error := false },
           { time := 5, duration := none, url := "http://b", had_error := true }] ∧
        s'.inserts.map (·.failed) = twoToInsert.inserts.map (·.failed) ++ [true, false] :=
  ⟨rfl, (runRound_inserts_each_outcome_once twoToInsert 0 _ rfl).1 [true, false] rfl
    (fun h => by cases h)⟩

theorem round_completes_after_cancel_witness :
    exec (runPings oneUrl 0) cancelMidRound = some midRoundCancelled ∧
      midRoundCancelled.cancelled = true ∧
      (midRoundCancelled.pc ≠ .loopCheck ∧ midRoundCancelled.pc ≠ .stopped) ∧
      (∃ (evs : List Event) (s' : State),
        exec midRoundCancelled evs = some s' ∧ s'.pc = .stopped) ∧
      (∀ (evs : List Event) (s' : State), exec midRoundCancelled evs = some s' →
        s'.pc = .stopped →
        s'.begins = midRoundCancelled.begins ∧
        ∃ rs, outstanding midRoundCancelled rs ∧
          s'.inserts = midRoundCancelled.inserts ++ rs.map cancelledAttempt) :=
  ⟨by decide, rfl, by decide,
    round_completes_after_cancel midRoundCancelled rfl (by decide)⟩

theorem cadence_floor_witness :
    exec (runPings oneUrl 0) twoRounds = some afterTwoRounds ∧
      List.Chain' (fun later earlier : Nat => earlier + D ≤ later) afterTwoRounds.begins ∧
      ∀ (c : Nat) (e : Event) (s' : State), afterTwoRounds.pc = .waitDone c →
        step afterTwoRounds e = some s' → s'.pc ≠ .waitDone c →
          s'.pc = .loopCheck ∧ timeoutDone afterTwoRounds c = true ∧
          (∀ b ∈ afterTwoRounds.begins.head?, b + D ≤ deadline c) ∧
          (afterTwoRounds.cancelled = false →
            ∀ b ∈ afterTwoRounds.begins.head?, b + D ≤ afterTwoRounds.now) ∧
          (afterTwoRounds.cancelled = true → ∀ (evs' : List Event) (s'' : State),
            exec s' evs' = some s'' → s''.begins = afterTwoRounds.begins) :=
  ⟨by decide, cadence_floor oneUrl 0 twoRounds afterTwoRounds (by decide)⟩

theorem startedAt_spacing_from_deadline_creation_witness :
    exec (runPings oneUrl 0) twoRounds = some afterTwoRounds ∧
      List.Chain' (fun later earlier : RoundStamp =>
        earlier.created + D ≤ later.startedAt ∧ earlier.startedAt ≤ later.startedAt)
        afterTwoRounds.stamps ∧
      (∀ st ∈ afterTwoRounds.stamps, st.created ≤ st.startedAt) ∧
      ∀ a ∈ afterTwoRounds.inserts, ∃ st ∈ afterTwoRounds.stamps, a.row.time = st.startedAt :=
  ⟨by decide, startedAt_spacing_from_deadline_creation oneUrl 0 twoRounds afterTwoRounds
    (by decide)⟩

theorem loop_check_decides_round_witness :
    exec (runPings oneUrl 0) [.interrupt] = some cancelledBeforeFirstRound ∧
      cancelledBeforeFirstRound.pc = .loopCheck ∧ cancelledBeforeFirstRound.cancelled = true ∧
      (step cancelledBeforeFirstRound .advance = some stoppedBeforeFirstRound ∧
        ∀ (evs : List Event) (s'' : State), exec cancelledBeforeFirstRound evs = some s'' →
          s''.begins = cancelledBeforeFirstRound.begins ∧
            (s''.pc = .loopCheck ∨ s''.pc = .stopped)) ∧
      (runPings oneUrl 0).cancelled = false ∧
      step (runPings oneUrl 0) .advance = some firstRoundBegun ∧
      ((cancelledBeforeFirstRound.pc = .loopCheck → Event.advance = .advance →
        ((stoppedBeforeFirstRound.pc = .roundEntry ∧
            stoppedBeforeFirstRound.begins =
              cancelledBeforeFirstRound.now :: cancelledBeforeFirstRound.begins) ↔
          cancelledBeforeFirstRound.cancelled = false) ∧
        ((stoppedBeforeFirstRound.pc = .stopped ∧
            stoppedBeforeFirstRound.begins = cancelledBeforeFirstRound.begins) ↔
          cancelledBeforeFirstRound.cancelled = true)) ∧
      (stoppedBeforeFirstRound.begins ≠ cancelledBeforeFirstRound.begins →
        cancelledBeforeFirstRound.pc = .loopCheck ∧ Event.advance = .advance ∧
          cancelledBeforeFirstRound.cancelled = false ∧
          stoppedBeforeFirstRound.pc = .roundEntry) ∧
      (stoppedBeforeFirstRound.pc = .stopped → cancelledBeforeFirstRound.pc ≠ .stopped →
        cancelledBeforeFirstRound.pc = .loopCheck ∧ Event.advance = .advance ∧
          cancelledBeforeFirstRound.cancelled = true) ∧
      (cancelledBeforeFirstRound.cancelled = true →
        (cancelledBeforeFirstRound.pc = .loopCheck ∨ cancelledBeforeFirstRound.pc = .stopped) →
        ∀ (evs : List Event) (s'' : State), exec stoppedBeforeFirstRound evs = some s'' →
          s''.begins = cancelledBeforeFirstRound.begins ∧
            (s''.pc = .loopCheck ∨ s''.pc = .stopped))) :=
  ⟨rfl, rfl, rfl,
    (loop_check_decides_round cancelledBeforeFirstRound).2.1 rfl rfl,
    rfl,
    (loop_check_decides_round (runPings oneUrl 0)).1 rfl rfl,
    (loop_check_decides_round cancelledBeforeFirstRound).2.2 .advance stoppedBeforeFirstRound rfl⟩

theorem startup_failure_never_schedules_witness :
    (migrateFails.connect ≠ none ∨ migrateFails.ping ≠ none ∨
        (runMigrations migrateFails).2 ≠ none) ∧
      (connectToDatabase migrateFails migrateFails.config).2.1 = none ∧
      (connectToDatabase migrateFails migrateFails.config).2.2 ≠ none ∧
      (run migrateFails 0).2.2 ≠ none ∧ (run migrateFails 0).2.1 = none ∧
      Call.runPings ∉ (run migrateFails 0).1 :=
  ⟨by decide, (startup_failure_never_schedules migrateFails 0).2.1 (by decide)⟩

end InternetMonitor
